import Mathlib

/-!
# Verification of the vehicle emission testing program

A shallow embedding of `src/Vehicle_emission_testing.cpp` and proofs of the
specification's claims about it.  C++ `double` arithmetic is modelled over `ℚ`
(the program only multiplies by 0.1, compares, and tests sign); C++ exceptions
are modelled as explicit error values travelling next to the mutated object,
so that the state an object is left in when an exception propagates remains
observable.  The `std::unordered_map` result registry is modelled as an
association list whose `insert` overwrites an existing key and otherwise
appends; only key/value content (never bucket order) is relied upon.
-/

namespace VET

/-! ## Emission strategies (`EmissionStrategy` hierarchy, lines 11-32) -/

/-- The two concrete `EmissionStrategy` subclasses of the program. -/
inductive Strategy where
  | gas
  | electric
deriving DecidableEq

/-- `GasEmissionStrategy::calculateEmission` returns `engineSize * 0.1`;
`ElectricEmissionStrategy::calculateEmission` returns `0`. -/
def calculateEmission : Strategy → ℚ → ℚ
  | Strategy.gas, parameter => parameter * (1 / 10)
  | Strategy.electric, _ => 0

/-! ## Vehicles (lines 34-91)

`GasVehicle` stores `engineSize`, `ElectricVehicle` stores `batteryCapacity`;
both forward that stored parameter to the injected strategy.  We keep one
structure with the category-specific parameter in a single field, which is
exactly the data the dispatch uses. -/

structure Vehicle where
  type : String
  age : Int
  emissionStandard : String
  parameter : ℚ
  strategy : Strategy
deriving DecidableEq

/-- `GasVehicle` constructor (line 61). -/
def mkGasVehicle (a : Int) (e : String) (size : ℚ) (strategy : Strategy) : Vehicle :=
  ⟨"Gas", a, e, size, strategy⟩

/-- `ElectricVehicle` constructor (line 80). -/
def mkElectricVehicle (a : Int) (e : String) (capacity : ℚ) (strategy : Strategy) : Vehicle :=
  ⟨"Electric", a, e, capacity, strategy⟩

/-- `getEmissionLevel` (lines 64-66, 83-85): delegate to the stored strategy
with the stored parameter. -/
def Vehicle.getEmissionLevel (v : Vehicle) : ℚ :=
  calculateEmission v.strategy v.parameter

/-! ## The test state machine (lines 93-177) -/

/-- The three concrete `EmissionTestState` subclasses. -/
inductive TestState where
  | pending
  | inProgress
  | completed
deriving DecidableEq

/-- The one exception the state machine can throw:
`std::invalid_argument("Invalid emission level.")` at line 163. -/
inductive TestError where
  | invalidEmissionValue
deriving DecidableEq

/-- `EmissionTest` (lines 122-151): id, current state object, verdict. -/
structure EmissionTest where
  vehicleID : String
  state : TestState
  complianceStatus : Bool
deriving DecidableEq

/-- The `EmissionTest` constructor (lines 129-130): `complianceStatus` starts
out `false`. -/
def mkEmissionTest (id : String) (initialState : TestState) : EmissionTest :=
  ⟨id, initialState, false⟩

/-- `InProgressState::handleTest` (lines 160-173): evaluate the emission,
throw on a negative value (leaving the record untouched, as the throw happens
before any mutation), otherwise record the verdict and move to `Completed`. -/
def InProgressState.handleTest (t : EmissionTest) (vehicle : Vehicle) (legalLimit : ℚ) :
    EmissionTest × Option TestError :=
  let emissionLevel := vehicle.getEmissionLevel
  if emissionLevel < 0 then
    (t, some TestError.invalidEmissionValue)
  else
    ({ t with complianceStatus := decide (emissionLevel ≤ legalLimit),
              state := TestState.completed }, none)

/-- `PendingState::handleTest` (lines 154-158): set the state to `InProgress`
and call `performTest` again.  The re-dispatch necessarily lands in
`InProgressState::handleTest` (the state was just set), so it is inlined. -/
def PendingState.handleTest (t : EmissionTest) (vehicle : Vehicle) (legalLimit : ℚ) :
    EmissionTest × Option TestError :=
  InProgressState.handleTest { t with state := TestState.inProgress } vehicle legalLimit

/-- `CompletedState::handleTest` (lines 175-177): print only; no mutation. -/
def CompletedState.handleTest (t : EmissionTest) (_vehicle : Vehicle) (_legalLimit : ℚ) :
    EmissionTest × Option TestError :=
  (t, none)

/-- `EmissionTest::performTest` (lines 136-138): virtual dispatch on the
current state object. -/
def EmissionTest.performTest (t : EmissionTest) (vehicle : Vehicle) (legalLimit : ℚ) :
    EmissionTest × Option TestError :=
  match t.state with
  | TestState.pending => PendingState.handleTest t vehicle legalLimit
  | TestState.inProgress => InProgressState.handleTest t vehicle legalLimit
  | TestState.completed => CompletedState.handleTest t vehicle legalLimit

/-! ## The result registry and the test runner (lines 179-196) -/

/-- `std::unordered_map<std::string, bool> testResults` (line 180), as an
association list; the mutex only serializes inserts and has no effect on the
map's final content, so it needs no counterpart here. -/
abbrev Registry := List (String × Bool)

/-- `testResults[id] = v` on an `unordered_map`: overwrite the entry when the
key is present, otherwise add a new one.  (Where the new entry sits in the
list is a modelling choice; an `unordered_map` promises nothing about
iteration order and no claim depends on it.) -/
def Registry.insert : Registry → String → Bool → Registry
  | [], k, b => [(k, b)]
  | (k₁, b₁) :: r, k, b =>
    if k₁ = k then (k, b) :: r else (k₁, b₁) :: Registry.insert r k b

/-- Lookup by key, as the menu's result listing and any `find` on the map
would observe it. -/
def Registry.find : Registry → String → Option Bool
  | [], _ => none
  | (k, b) :: r, k' => if k = k' then some b else Registry.find r k'

/-- `runTest` (lines 183-196): build a fresh test in `Pending`, drive it, and
on success store the verdict under `id`; every exception is caught at this
boundary (printed to `stderr`) and leaves the registry untouched. -/
def runTest (vehicle : Vehicle) (id : String) (legalLimit : ℚ) (r : Registry) : Registry :=
  let run := (mkEmissionTest id TestState.pending).performTest vehicle legalLimit
  match run.2 with
  | none => Registry.insert r id run.1.complianceStatus
  | some _ => r

/-! ## Identifier rendering (`std::to_string`, line 218) -/

/-- Digits of `n`, most significant first, `fuel` bounding the recursion depth
(`n` itself suffices). Models the digit loop of `std::to_string`. -/
def natDecimalAux : Nat → Nat → List Char
  | 0, _ => []
  | _ + 1, 0 => []
  | fuel + 1, n + 1 =>
    natDecimalAux fuel ((n + 1) / 10) ++ [Nat.digitChar ((n + 1) % 10)]

/-- `std::to_string` on a non-negative integer: its decimal rendering. -/
def natDecimal (n : Nat) : String :=
  if n = 0 then "0" else String.mk (natDecimalAux n n)

/-- Reads a decimal digit string back; a left inverse of `natDecimal`, used to
prove identifiers distinct. -/
def natDecode (s : String) : Nat :=
  s.data.foldl (fun a c => a * 10 + (c.toNat - 48)) 0

/-- The identifier `"Vehicle_" + std::to_string(i)` the runner assigns
(line 218). -/
def testId (i : Nat) : String :=
  "Vehicle_" ++ natDecimal i

/-! ## The concurrent fan-out in `main` (lines 214-224)

`main` spawns one `runTest` thread per vehicle, with ids `Vehicle_1`,
`Vehicle_2`, ... in input order, and joins them all.  The threads write
disjoint keys under one mutex, so the registry's final key/value content is
the same whatever the interleaving; we model the joined outcome as a fold in
input order. -/

def runAllFrom (vehicles : List Vehicle) (idx : Nat) (legalLimit : ℚ) (r : Registry) :
    Registry :=
  match vehicles with
  | [] => r
  | v :: vs => runAllFrom vs (idx + 1) legalLimit (runTest v (testId idx) legalLimit r)

/-- The whole run: `vehicleID` starts at 1 (line 216) and the registry starts
empty. -/
def runAll (vehicles : List Vehicle) (legalLimit : ℚ) : Registry :=
  runAllFrom vehicles 1 legalLimit []

/-- The fleet `main` builds (lines 205-209). -/
def mainVehicles : List Vehicle :=
  [mkGasVehicle 5 "BS6" 2000 Strategy.gas,
   mkElectricVehicle 2 "EV" 50 Strategy.electric,
   mkGasVehicle 10 "BS4" 1500 Strategy.gas]

/-- The legal limit `main` uses (line 212). -/
def mainLegalLimit : ℚ := 180

/-! ## The vehicle-details query (menu choice 2, lines 242-252)

`main` runs `std::stoi(inputID.substr(8)) - 1` with no surrounding
`try`/`catch`: any exception from `substr` or `stoi` is uncaught and
terminates the process. -/

/-- The exceptions the query's library calls can throw. -/
inductive CppException where
  | outOfRange
  | invalidArgument
deriving DecidableEq

/-- What the choice-2 branch does when no exception escapes. -/
inductive QueryOutcome where
  | details (index : Nat)
  | invalidId
deriving DecidableEq

/-- `std::string::substr(pos)`: the suffix from `pos`, throwing
`std::out_of_range` when `pos > size()`. -/
def cppSubstr (s : String) (pos : Nat) : Except CppException String :=
  if pos ≤ s.data.length then Except.ok (String.mk (s.data.drop pos))
  else Except.error CppException.outOfRange

/-- `std::stoi`: skip whitespace, take an optional sign and then the longest
digit run; throw `std::invalid_argument` when no digit is found.  (The
`std::out_of_range` overflow case is irrelevant at the inputs considered
here and is not modelled.) -/
def cppStoi (s : String) : Except CppException Int :=
  let t := s.data.dropWhile Char.isWhitespace
  let signed : Int × List Char :=
    match t with
    | '-' :: rest => (-1, rest)
    | '+' :: rest => (1, rest)
    | _ => (1, t)
  let ds := signed.2.takeWhile Char.isDigit
  if ds.isEmpty then Except.error CppException.invalidArgument
  else Except.ok (signed.1 * (ds.foldl (fun a c => a * 10 + (c.toNat - 48)) 0 : Nat))

/-- The choice-2 branch of the menu (lines 242-252): parse the typed
identifier, then either display the vehicle at the parsed index or print
"Invalid Vehicle ID.".  An `Except.error` models an exception escaping
`main` (a crash). -/
def checkVehicleDetails (inputID : String) (numVehicles : Nat) :
    Except CppException QueryOutcome :=
  match cppSubstr inputID 8 with
  | Except.error e => Except.error e
  | Except.ok suffix =>
    match cppStoi suffix with
    | Except.error e => Except.error e
    | Except.ok n =>
      let index : Int := n - 1
      if 0 ≤ index ∧ index < (numVehicles : Int) then
        Except.ok (QueryOutcome.details index.toNat)
      else
        Except.ok QueryOutcome.invalidId

/-! ## Registry lemmas -/

theorem Registry.find_eq_none (r : Registry) (k : String) :
    Registry.find r k = none ↔ k ∉ r.map Prod.fst := by
  induction r with
  | nil => simp [Registry.find]
  | cons p r ih =>
    obtain ⟨k₁, b₁⟩ := p
    by_cases h : k₁ = k
    · subst h
      simp [Registry.find]
    · simp [Registry.find, h, ih, Ne.symm h]

theorem Registry.find_insert_self (r : Registry) (k : String) (b : Bool) :
    Registry.find (Registry.insert r k b) k = some b := by
  induction r with
  | nil => simp [Registry.insert, Registry.find]
  | cons p r ih =>
    obtain ⟨k₁, b₁⟩ := p
    by_cases h : k₁ = k
    · simp [Registry.insert, Registry.find, h]
    · simp [Registry.insert, Registry.find, h, ih]

theorem Registry.find_insert_ne (r : Registry) (k : String) (b : Bool) (k' : String)
    (h : k' ≠ k) :
    Registry.find (Registry.insert r k b) k' = Registry.find r k' := by
  induction r with
  | nil => simp [Registry.insert, Registry.find, Ne.symm h]
  | cons p r ih =>
    obtain ⟨k₁, b₁⟩ := p
    by_cases h₁ : k₁ = k
    · subst h₁
      simp [Registry.insert, Registry.find, Ne.symm h]
    · by_cases h₂ : k₁ = k'
      · simp [Registry.insert, Registry.find, h₁, h₂, h]
      · simp [Registry.insert, Registry.find, h₁, h₂, ih]

theorem Registry.keys_insert_not_mem (r : Registry) (k : String) (b : Bool)
    (h : k ∉ r.map Prod.fst) :
    (Registry.insert r k b).map Prod.fst = r.map Prod.fst ++ [k] := by
  induction r with
  | nil => rfl
  | cons p r ih =>
    obtain ⟨k₁, b₁⟩ := p
    simp only [List.map_cons, List.mem_cons] at h
    push_neg at h
    simp [Registry.insert, Ne.symm h.1, ih h.2]

theorem Registry.keys_insert_subset (r : Registry) (k : String) (b : Bool) (k' : String)
    (h : k' ∈ (Registry.insert r k b).map Prod.fst) :
    k' ∈ r.map Prod.fst ∨ k' = k := by
  induction r with
  | nil =>
    simp only [Registry.insert, List.map_cons, List.map_nil, List.mem_singleton] at h
    exact Or.inr h
  | cons p r ih =>
    obtain ⟨k₁, b₁⟩ := p
    by_cases h₁ : k₁ = k
    · subst h₁
      simp only [Registry.insert, if_pos rfl, ite_true, eq_self_iff_true,
        List.map_cons, List.mem_cons] at h
      rcases h with h | h
      · exact Or.inr h
      · exact Or.inl (List.mem_cons_of_mem _ h)
    · simp only [Registry.insert, if_neg h₁, List.map_cons, List.mem_cons] at h
      rcases h with h | h
      · exact Or.inl (List.mem_cons.mpr (Or.inl h))
      · rcases ih h with h' | h'
        · exact Or.inl (List.mem_cons_of_mem _ h')
        · exact Or.inr h'

theorem Registry.length_insert_le (r : Registry) (k : String) (b : Bool) :
    (Registry.insert r k b).length ≤ r.length + 1 := by
  induction r with
  | nil => simp [Registry.insert]
  | cons p r ih =>
    obtain ⟨k₁, b₁⟩ := p
    by_cases h : k₁ = k
    · simp [Registry.insert, h]
    · simp only [Registry.insert, if_neg h, List.length_cons]
      omega

theorem Registry.length_insert_not_mem (r : Registry) (k : String) (b : Bool)
    (h : k ∉ r.map Prod.fst) :
    (Registry.insert r k b).length = r.length + 1 := by
  induction r with
  | nil => rfl
  | cons p r ih =>
    obtain ⟨k₁, b₁⟩ := p
    simp only [List.map_cons, List.mem_cons] at h
    push_neg at h
    simp [Registry.insert, Ne.symm h.1, ih h.2]

theorem Registry.nodup_keys_insert (r : Registry) (k : String) (b : Bool)
    (h : (r.map Prod.fst).Nodup) :
    ((Registry.insert r k b).map Prod.fst).Nodup := by
  by_cases hm : k ∈ r.map Prod.fst
  · -- the key is replaced in place: the key list is unchanged
    have keys_eq : (Registry.insert r k b).map Prod.fst = r.map Prod.fst := by
      clear h
      induction r with
      | nil => simp at hm
      | cons p r ih =>
        obtain ⟨k₁, b₁⟩ := p
        by_cases h₁ : k₁ = k
        · subst h₁
          simp [Registry.insert]
        · simp only [List.map_cons, List.mem_cons] at hm
          rcases hm with hm | hm
          · exact absurd hm.symm h₁
          · simp [Registry.insert, h₁, ih hm]
    rw [keys_eq]
    exact h
  · rw [Registry.keys_insert_not_mem r k b hm]
    simp [List.nodup_append, h, hm]

/-! ## State-machine and runTest lemmas -/

/-- Characterization of `performTest` on a record fresh out of the
constructor (`Pending`, verdict initialized to `false`). -/
theorem performTest_fresh (v : Vehicle) (id : String) (l : ℚ) :
    (mkEmissionTest id TestState.pending).performTest v l =
      if v.getEmissionLevel < 0 then
        (⟨id, TestState.inProgress, false⟩, some TestError.invalidEmissionValue)
      else
        (⟨id, TestState.completed, decide (v.getEmissionLevel ≤ l)⟩, none) := by
  by_cases h : v.getEmissionLevel < 0
  · simp [mkEmissionTest, EmissionTest.performTest, PendingState.handleTest,
      InProgressState.handleTest, h]
  · simp [mkEmissionTest, EmissionTest.performTest, PendingState.handleTest,
      InProgressState.handleTest, h]

theorem runTest_nonneg (v : Vehicle) (id : String) (l : ℚ) (r : Registry)
    (h : 0 ≤ v.getEmissionLevel) :
    runTest v id l r = Registry.insert r id (decide (v.getEmissionLevel ≤ l)) := by
  simp [runTest, performTest_fresh, not_lt.mpr h]

theorem runTest_neg (v : Vehicle) (id : String) (l : ℚ) (r : Registry)
    (h : v.getEmissionLevel < 0) :
    runTest v id l r = r := by
  simp [runTest, performTest_fresh, h]

theorem runTest_cases (v : Vehicle) (id : String) (l : ℚ) (r : Registry) :
    runTest v id l r = r ∨
      runTest v id l r = Registry.insert r id (decide (v.getEmissionLevel ≤ l)) := by
  by_cases h : v.getEmissionLevel < 0
  · exact Or.inl (runTest_neg v id l r h)
  · exact Or.inr (runTest_nonneg v id l r (not_lt.mp h))

theorem runTest_find_ne (v : Vehicle) (id : String) (l : ℚ) (r : Registry) (k : String)
    (h : k ≠ id) :
    Registry.find (runTest v id l r) k = Registry.find r k := by
  rcases runTest_cases v id l r with hc | hc <;> rw [hc]
  exact Registry.find_insert_ne r id _ k h

theorem runTest_length_le (v : Vehicle) (id : String) (l : ℚ) (r : Registry) :
    (runTest v id l r).length ≤ r.length + 1 := by
  rcases runTest_cases v id l r with hc | hc <;> rw [hc]
  · omega
  · exact Registry.length_insert_le r id _

theorem runTest_keys_subset (v : Vehicle) (id : String) (l : ℚ) (r : Registry) (k : String)
    (h : k ∈ (runTest v id l r).map Prod.fst) :
    k ∈ r.map Prod.fst ∨ k = id := by
  rcases runTest_cases v id l r with hc | hc <;> rw [hc] at h
  · exact Or.inl h
  · exact Registry.keys_insert_subset r id _ k h

theorem runTest_nodup_keys (v : Vehicle) (id : String) (l : ℚ) (r : Registry)
    (h : (r.map Prod.fst).Nodup) :
    ((runTest v id l r).map Prod.fst).Nodup := by
  rcases runTest_cases v id l r with hc | hc <;> rw [hc]
  · exact h
  · exact Registry.nodup_keys_insert r id _ h

/-! ## Decimal identifiers -/

/-- A decimal digit below 10 round-trips through `Nat.digitChar`. -/
theorem digitChar_roundtrip : ∀ d, d < 10 → (Nat.digitChar d).toNat - 48 = d := by
  decide

theorem natDecimalAux_decode :
    ∀ (fuel n : Nat), n ≤ fuel →
      (natDecimalAux fuel n).foldl (fun a c => a * 10 + (c.toNat - 48)) 0 = n := by
  intro fuel
  induction fuel with
  | zero =>
    intro n hn
    interval_cases n
    rfl
  | succ fuel ih =>
    intro n hn
    match n with
    | 0 => rfl
    | m + 1 =>
      have hq : (m + 1) / 10 ≤ fuel := by
        have := Nat.div_lt_self (Nat.succ_pos m) (by norm_num : 1 < 10)
        omega
      rw [natDecimalAux, List.foldl_append, ih ((m + 1) / 10) hq]
      show (m + 1) / 10 * 10 + ((Nat.digitChar ((m + 1) % 10)).toNat - 48) = m + 1
      rw [digitChar_roundtrip ((m + 1) % 10) (Nat.mod_lt _ (by norm_num))]
      omega

/-- `natDecode` is a left inverse of `natDecimal`: distinct numbers render to
distinct identifier suffixes. -/
theorem natDecode_natDecimal (n : Nat) : natDecode (natDecimal n) = n := by
  by_cases h : n = 0
  · subst h
    rfl
  · unfold natDecimal natDecode
    rw [if_neg h]
    exact natDecimalAux_decode n n le_rfl

theorem natDecimal_injective : Function.Injective natDecimal :=
  Function.LeftInverse.injective natDecode_natDecimal

/-- Reads the numeric part back out of a `testId`. -/
def testDecode (s : String) : Nat :=
  natDecode (String.mk (s.data.drop 8))

theorem testDecode_testId (i : Nat) : testDecode (testId i) = i := by
  unfold testDecode testId
  rw [String.data_append]
  have h8 : "Vehicle_".data.length = 8 := rfl
  rw [← h8, List.drop_left]
  exact natDecode_natDecimal i

theorem testId_injective : Function.Injective testId :=
  Function.LeftInverse.injective testDecode_testId

/-! ## Runner invariants -/

/-- Keys the runner never writes are untouched. -/
theorem runAllFrom_find_untouched (vs : List Vehicle) (idx : Nat) (l : ℚ) (r : Registry)
    (k : String) (h : ∀ j, idx ≤ j → k ≠ testId j) :
    Registry.find (runAllFrom vs idx l r) k = Registry.find r k := by
  induction vs generalizing idx r with
  | nil => rfl
  | cons v vs ih =>
    rw [runAllFrom, ih (idx + 1) _ (fun j hj => h j (by omega)),
      runTest_find_ne v (testId idx) l r k (h idx le_rfl)]

/-- A vehicle whose emission level is non-negative gets its verdict stored
under its own identifier, whatever the other vehicles do. -/
theorem runAllFrom_find_written (vs : List Vehicle) (idx : Nat) (l : ℚ) (r : Registry)
    (i : Nat) (h : i < vs.length)
    (hnn : 0 ≤ (vs.get ⟨i, h⟩).getEmissionLevel) :
    Registry.find (runAllFrom vs idx l r) (testId (idx + i)) =
      some (decide ((vs.get ⟨i, h⟩).getEmissionLevel ≤ l)) := by
  induction vs generalizing idx r i with
  | nil => exact absurd h (Nat.not_lt_zero i)
  | cons v vs ih =>
    match i with
    | 0 =>
      rw [runAllFrom]
      have hfresh : ∀ j, idx + 1 ≤ j → testId idx ≠ testId j := by
        intro j hj he
        have := testId_injective he
        omega
      show Registry.find (runAllFrom vs (idx + 1) l (runTest v (testId idx) l r))
          (testId idx) = some (decide (v.getEmissionLevel ≤ l))
      rw [runAllFrom_find_untouched vs (idx + 1) l _ (testId idx) hfresh,
        runTest_nonneg v (testId idx) l r hnn,
        Registry.find_insert_self]
    | m + 1 =>
      have hm : m < vs.length := Nat.lt_of_succ_lt_succ h
      have harith : idx + (m + 1) = (idx + 1) + m := by omega
      rw [runAllFrom, harith]
      exact ih (idx + 1) _ m hm hnn

/-- A vehicle whose emission level is negative never gets an entry (assuming
its identifier was not already present). -/
theorem runAllFrom_find_failed (vs : List Vehicle) (idx : Nat) (l : ℚ) (r : Registry)
    (i : Nat) (h : i < vs.length)
    (hneg : (vs.get ⟨i, h⟩).getEmissionLevel < 0)
    (habs : testId (idx + i) ∉ r.map Prod.fst) :
    Registry.find (runAllFrom vs idx l r) (testId (idx + i)) = none := by
  induction vs generalizing idx r i with
  | nil => exact absurd h (Nat.not_lt_zero i)
  | cons v vs ih =>
    match i with
    | 0 =>
      rw [runAllFrom]
      have hfresh : ∀ j, idx + 1 ≤ j → testId idx ≠ testId j := by
        intro j hj he
        have := testId_injective he
        omega
      show Registry.find (runAllFrom vs (idx + 1) l (runTest v (testId idx) l r))
          (testId idx) = none
      rw [runTest_neg v (testId idx) l r hneg,
        runAllFrom_find_untouched vs (idx + 1) l r (testId idx) hfresh]
      exact (Registry.find_eq_none r (testId idx)).mpr habs
    | m + 1 =>
      have hm : m < vs.length := Nat.lt_of_succ_lt_succ h
      have harith : idx + (m + 1) = (idx + 1) + m := by omega
      have habs' : testId ((idx + 1) + m) ∉ (runTest v (testId idx) l r).map Prod.fst := by
        intro hmem
        rcases runTest_keys_subset v (testId idx) l r _ hmem with hk | hk
        · exact habs (by rwa [harith])
        · have := testId_injective hk
          omega
      rw [runAllFrom, harith]
      exact ih (idx + 1) _ m hm hneg habs'

/-- The registry gains at most one entry per vehicle. -/
theorem runAllFrom_length_le (vs : List Vehicle) (idx : Nat) (l : ℚ) (r : Registry) :
    (runAllFrom vs idx l r).length ≤ r.length + vs.length := by
  induction vs generalizing idx r with
  | nil => simp [runAllFrom]
  | cons v vs ih =>
    rw [runAllFrom]
    calc (runAllFrom vs (idx + 1) l (runTest v (testId idx) l r)).length
        ≤ (runTest v (testId idx) l r).length + vs.length := ih (idx + 1) _
      _ ≤ (r.length + 1) + vs.length := by
          have := runTest_length_le v (testId idx) l r
          omega
      _ = r.length + (v :: vs).length := by simp [List.length_cons]; omega

/-- With every emission non-negative and all upcoming identifiers fresh, the
registry gains exactly one entry per vehicle. -/
theorem runAllFrom_length_exact (vs : List Vehicle) (idx : Nat) (l : ℚ) (r : Registry)
    (hfresh : ∀ j, idx ≤ j → testId j ∉ r.map Prod.fst)
    (hnn : ∀ v ∈ vs, 0 ≤ v.getEmissionLevel) :
    (runAllFrom vs idx l r).length = r.length + vs.length := by
  induction vs generalizing idx r with
  | nil => simp [runAllFrom]
  | cons v vs ih =>
    rw [runAllFrom, runTest_nonneg v (testId idx) l r (hnn v (List.mem_cons_self v vs))]
    have hlen := Registry.length_insert_not_mem r (testId idx)
      (decide (v.getEmissionLevel ≤ l)) (hfresh idx le_rfl)
    have hfresh' : ∀ j, idx + 1 ≤ j →
        testId j ∉ (Registry.insert r (testId idx) (decide (v.getEmissionLevel ≤ l))).map
          Prod.fst := by
      intro j hj hmem
      rcases Registry.keys_insert_subset r (testId idx) _ (testId j) hmem with hk | hk
      · exact hfresh j (by omega) hk
      · have := testId_injective hk
        omega
    rw [ih (idx + 1) _ hfresh' (fun w hw => hnn w (List.mem_cons_of_mem v hw)), hlen]
    simp [List.length_cons]
    omega

/-- One failing vehicle means strictly fewer entries than vehicles. -/
theorem runAllFrom_length_lt (vs : List Vehicle) (idx : Nat) (l : ℚ) (r : Registry)
    (hneg : ∃ v ∈ vs, v.getEmissionLevel < 0) :
    (runAllFrom vs idx l r).length < r.length + vs.length := by
  induction vs generalizing idx r with
  | nil => simp at hneg
  | cons v vs ih =>
    rw [runAllFrom]
    by_cases hv : v.getEmissionLevel < 0
    · rw [runTest_neg v (testId idx) l r hv]
      have := runAllFrom_length_le vs (idx + 1) l r
      simp only [List.length_cons]
      omega
    · have hneg' : ∃ w ∈ vs, w.getEmissionLevel < 0 := by
        rcases hneg with ⟨w, hw, hwlt⟩
        rcases List.mem_cons.mp hw with hw | hw
        · exact absurd (hw ▸ hwlt) hv
        · exact ⟨w, hw, hwlt⟩
      have h1 := ih (idx + 1) (runTest v (testId idx) l r) hneg'
      have h2 := runTest_length_le v (testId idx) l r
      simp only [List.length_cons]
      omega

/-- The runner never writes a duplicate key. -/
theorem runAllFrom_nodup_keys (vs : List Vehicle) (idx : Nat) (l : ℚ) (r : Registry)
    (h : (r.map Prod.fst).Nodup) :
    ((runAllFrom vs idx l r).map Prod.fst).Nodup := by
  induction vs generalizing idx r with
  | nil => exact h
  | cons v vs ih =>
    rw [runAllFrom]
    exact ih (idx + 1) _ (runTest_nodup_keys v (testId idx) l r h)

/-! ## Concrete fixtures for the closed instantiations -/

/-- A gas vehicle of the `main` fleet's kind: emission `150`. -/
def gasOk : Vehicle := mkGasVehicle 10 "BS4" 1500 Strategy.gas

/-- A gas vehicle with a (corrupted) negative parameter: emission `-1`. -/
def gasBad : Vehicle := mkGasVehicle 7 "BS3" (-10) Strategy.gas

/-- An electric vehicle of the `main` fleet's kind: emission `0`. -/
def elecOk : Vehicle := mkElectricVehicle 2 "EV" 50 Strategy.electric

/-- A fleet whose first vehicle's strategy yields a negative emission. -/
def fleetBad : List Vehicle := [gasBad, elecOk]

/-! ## The claims -/

/-- C1: driving a fresh test record through `performTest` on a vehicle with a
non-negative emission level succeeds, lands in `Completed`, and sets the
verdict to `emissionLevel ≤ legalLimit` — `true` exactly when the emission is
at most the limit (equality passes), `false` exactly when it exceeds it. -/
theorem performTest_fresh_sets_verdict (v : Vehicle) (id : String) (l : ℚ)
    (h : 0 ≤ v.getEmissionLevel) :
    ((mkEmissionTest id TestState.pending).performTest v l).2 = none ∧
    ((mkEmissionTest id TestState.pending).performTest v l).1.state =
      TestState.completed ∧
    (((mkEmissionTest id TestState.pending).performTest v l).1.complianceStatus = true ↔
      v.getEmissionLevel ≤ l) ∧
    (((mkEmissionTest id TestState.pending).performTest v l).1.complianceStatus = false ↔
      l < v.getEmissionLevel) := by
  rw [performTest_fresh, if_neg (not_lt.mpr h)]
  refine ⟨rfl, rfl, ?_, ?_⟩
  · simp
  · simp [not_le]

theorem performTest_fresh_sets_verdict_witness :
    0 ≤ gasOk.getEmissionLevel ∧
    ((mkEmissionTest "Vehicle_3" TestState.pending).performTest gasOk 180).2 = none ∧
    ((mkEmissionTest "Vehicle_3" TestState.pending).performTest gasOk 180).1.state =
      TestState.completed ∧
    (((mkEmissionTest "Vehicle_3" TestState.pending).performTest gasOk 180).1.complianceStatus =
      true ↔ gasOk.getEmissionLevel ≤ 180) :=
  have h : 0 ≤ gasOk.getEmissionLevel := by
    norm_num [gasOk, mkGasVehicle, Vehicle.getEmissionLevel, calculateEmission]
  ⟨h, (performTest_fresh_sets_verdict gasOk "Vehicle_3" 180 h).1,
    (performTest_fresh_sets_verdict gasOk "Vehicle_3" 180 h).2.1,
    (performTest_fresh_sets_verdict gasOk "Vehicle_3" 180 h).2.2.1⟩

/-- C2: on a vehicle whose strategy yields a negative emission level, the
fresh record's `performTest` raises `InvalidEmissionValue`; the record is left
in `InProgress` with its verdict still the constructor's `false`. -/
theorem performTest_fresh_invalid (v : Vehicle) (id : String) (l : ℚ)
    (h : v.getEmissionLevel < 0) :
    (mkEmissionTest id TestState.pending).performTest v l =
      (⟨id, TestState.inProgress, false⟩, some TestError.invalidEmissionValue) := by
  rw [performTest_fresh, if_pos h]

theorem performTest_fresh_invalid_witness :
    gasBad.getEmissionLevel < 0 ∧
    (mkEmissionTest "Vehicle_1" TestState.pending).performTest gasBad 180 =
      (⟨"Vehicle_1", TestState.inProgress, false⟩, some TestError.invalidEmissionValue) :=
  have h : gasBad.getEmissionLevel < 0 := by
    norm_num [gasBad, mkGasVehicle, Vehicle.getEmissionLevel, calculateEmission]
  ⟨h, performTest_fresh_invalid gasBad "Vehicle_1" 180 h⟩

/-- C3: a failing test execution writes nothing into the registry: the
registry is exactly what it was, so the failing vehicle's key stays missing
(if it was missing) and every other identifier's entry is unaffected. -/
theorem runTest_failure_writes_nothing (v : Vehicle) (id : String) (l : ℚ) (r : Registry)
    (h : ((mkEmissionTest id TestState.pending).performTest v l).2 ≠ none) :
    runTest v id l r = r ∧
    (Registry.find r id = none → Registry.find (runTest v id l r) id = none) ∧
    (∀ k, Registry.find (runTest v id l r) k = Registry.find r k) := by
  have hneg : v.getEmissionLevel < 0 := by
    by_contra hc
    rw [performTest_fresh, if_neg hc] at h
    exact h rfl
  have he := runTest_neg v id l r hneg
  refine ⟨he, fun hf => ?_, fun k => ?_⟩
  · rw [he]
    exact hf
  · rw [he]

theorem runTest_failure_writes_nothing_witness :
    ((mkEmissionTest "Vehicle_1" TestState.pending).performTest gasBad 180).2 ≠ none ∧
    runTest gasBad "Vehicle_1" 180 [("Vehicle_2", true)] = [("Vehicle_2", true)] := by
  have hneg : gasBad.getEmissionLevel < 0 := by
    norm_num [gasBad, mkGasVehicle, Vehicle.getEmissionLevel, calculateEmission]
  have h : ((mkEmissionTest "Vehicle_1" TestState.pending).performTest gasBad 180).2 ≠ none := by
    rw [performTest_fresh, if_pos hneg]
    simp
  exact ⟨h, (runTest_failure_writes_nothing gasBad "Vehicle_1" 180 [("Vehicle_2", true)] h).1⟩

/-- C4: `performTest` on a `Completed` record is a pure no-op for every
vehicle and limit: no error, no re-evaluation, no change to verdict or
state. -/
theorem performTest_completed_idempotent (t : EmissionTest) (v : Vehicle) (l : ℚ)
    (h : t.state = TestState.completed) :
    t.performTest v l = (t, none) := by
  simp only [EmissionTest.performTest, h, CompletedState.handleTest]

theorem performTest_completed_idempotent_witness :
    (⟨"Vehicle_1", TestState.completed, true⟩ : EmissionTest).state = TestState.completed ∧
    (⟨"Vehicle_1", TestState.completed, true⟩ : EmissionTest).performTest gasBad 180 =
      (⟨"Vehicle_1", TestState.completed, true⟩, none) :=
  ⟨rfl, performTest_completed_idempotent ⟨"Vehicle_1", TestState.completed, true⟩ gasBad 180 rfl⟩

/-- C5: with every strategy non-negative the registry ends with exactly one
entry per vehicle and no duplicate keys; with any negative strategy it ends
strictly smaller, and a failed vehicle's identifier has no entry at all. -/
theorem runAll_entry_count (vehicles : List Vehicle) (l : ℚ) :
    ((∀ v ∈ vehicles, 0 ≤ v.getEmissionLevel) →
      (runAll vehicles l).length = vehicles.length) ∧
    ((∃ v ∈ vehicles, v.getEmissionLevel < 0) →
      (runAll vehicles l).length < vehicles.length) ∧
    (∀ i (h : i < vehicles.length), (vehicles.get ⟨i, h⟩).getEmissionLevel < 0 →
      Registry.find (runAll vehicles l) (testId (i + 1)) = none) ∧
    ((runAll vehicles l).map Prod.fst).Nodup := by
  refine ⟨fun hnn => ?_, fun hneg => ?_, fun i h hi => ?_, ?_⟩
  · have := runAllFrom_length_exact vehicles 1 l [] (by simp) hnn
    simpa [runAll] using this
  · have := runAllFrom_length_lt vehicles 1 l [] hneg
    simpa [runAll] using this
  · have := runAllFrom_find_failed vehicles 1 l [] i h hi (by simp)
    rw [runAll]
    rwa [Nat.add_comm 1 i] at this
  · exact runAllFrom_nodup_keys vehicles 1 l [] (by simp)

theorem runAll_entry_count_witness :
    (∀ v ∈ mainVehicles, 0 ≤ v.getEmissionLevel) ∧
    (runAll mainVehicles mainLegalLimit).length = 3 ∧
    (runAll fleetBad 180).length < 2 ∧
    Registry.find (runAll fleetBad 180) (testId 1) = none := by
  have hbad : gasBad.getEmissionLevel < 0 := by
    norm_num [gasBad, mkGasVehicle, Vehicle.getEmissionLevel, calculateEmission]
  have hnn : ∀ v ∈ mainVehicles, 0 ≤ v.getEmissionLevel := by
    intro v hv
    simp only [mainVehicles, List.mem_cons, List.not_mem_nil, or_false] at hv
    rcases hv with h | h | h <;> subst h <;>
      norm_num [Vehicle.getEmissionLevel, calculateEmission, mkGasVehicle, mkElectricVehicle]
  have hneg : ∃ v ∈ fleetBad, v.getEmissionLevel < 0 :=
    ⟨gasBad, List.mem_cons_self gasBad [elecOk], hbad⟩
  refine ⟨hnn, ?_, ?_, ?_⟩
  · exact (runAll_entry_count mainVehicles mainLegalLimit).1 hnn
  · exact (runAll_entry_count fleetBad 180).2.1 hneg
  · exact (runAll_entry_count fleetBad 180).2.2.1 0 (by decide) hbad

/-- C6: both strategies are pure functions of their parameter: the gas rule
returns `parameter * 0.1` and the electric rule returns `0` whatever its
input. -/
theorem calculateEmission_rules (p : ℚ) :
    calculateEmission Strategy.gas p = p * (1 / 10) ∧
    calculateEmission Strategy.electric p = 0 :=
  ⟨rfl, rfl⟩

/-- C7: the vehicle at 1-based position `i+1` of the input sequence is keyed
`"Vehicle_" ++ decimal (i+1)` in the registry, and (when its test completes)
that key holds exactly its verdict. -/
theorem runAll_identifier_assignment (vehicles : List Vehicle) (l : ℚ) (i : Nat)
    (h : i < vehicles.length) (hnn : 0 ≤ (vehicles.get ⟨i, h⟩).getEmissionLevel) :
    Registry.find (runAll vehicles l) (testId (i + 1)) =
      some (decide ((vehicles.get ⟨i, h⟩).getEmissionLevel ≤ l)) := by
  have := runAllFrom_find_written vehicles 1 l [] i h hnn
  rw [runAll]
  rwa [Nat.add_comm 1 i] at this

theorem runAll_identifier_assignment_witness :
    1 < mainVehicles.length ∧
    Registry.find (runAll mainVehicles mainLegalLimit) (testId 2) = some true := by
  have h1 : 1 < mainVehicles.length := by decide
  have hget : mainVehicles.get ⟨1, h1⟩ = mkElectricVehicle 2 "EV" 50 Strategy.electric := rfl
  have hy : 0 ≤ (mainVehicles.get ⟨1, h1⟩).getEmissionLevel := by
    rw [hget]
    norm_num [mkElectricVehicle, Vehicle.getEmissionLevel, calculateEmission]
  have hw := runAll_identifier_assignment mainVehicles mainLegalLimit 1 h1 hy
  refine ⟨h1, ?_⟩
  rw [show (1 : Nat) + 1 = 2 from rfl] at hw
  rw [hw, hget]
  simp only [Option.some.injEq, decide_eq_true_eq]
  norm_num [mkElectricVehicle, Vehicle.getEmissionLevel, calculateEmission, mainLegalLimit]

/-- C8 (the code as it stands): a malformed identifier at the details prompt
escapes as an uncaught exception — `"Vehicle_x"` reaches `std::stoi` with no
digits (`std::invalid_argument`), `"abc"` is shorter than 8 characters so
`substr(8)` already throws (`std::out_of_range`) — while well-formed but
out-of-range identifiers get the "Invalid Vehicle ID." message. -/
theorem query_malformed_uncaught :
    checkVehicleDetails "Vehicle_x" 3 = Except.error CppException.invalidArgument ∧
    checkVehicleDetails "abc" 3 = Except.error CppException.outOfRange ∧
    checkVehicleDetails "Vehicle_1" 3 = Except.ok (QueryOutcome.details 0) ∧
    checkVehicleDetails "Vehicle_9" 3 = Except.ok QueryOutcome.invalidId :=
  ⟨rfl, rfl, rfl, rfl⟩

/-- C9: the verdict accessor reads `false` on any record that has not reached
`Completed`: the constructor initializes it to `false`, and `performTest`
leaves it untouched whenever its outcome is not `Completed`. -/
theorem complianceStatus_false_before_completed :
    (∀ (id : String) (st : TestState), (mkEmissionTest id st).complianceStatus = false) ∧
    (∀ (t : EmissionTest) (v : Vehicle) (l : ℚ),
      (t.performTest v l).1.state ≠ TestState.completed →
        (t.performTest v l).1.complianceStatus = t.complianceStatus) := by
  refine ⟨fun id st => rfl, fun t v l h => ?_⟩
  obtain ⟨id, st, c⟩ := t
  cases st with
  | pending =>
    by_cases he : v.getEmissionLevel < 0
    · simp [EmissionTest.performTest, PendingState.handleTest, InProgressState.handleTest, he]
    · exfalso
      apply h
      simp [EmissionTest.performTest, PendingState.handleTest, InProgressState.handleTest, he]
  | inProgress =>
    by_cases he : v.getEmissionLevel < 0
    · simp [EmissionTest.performTest, InProgressState.handleTest, he]
    · exfalso
      apply h
      simp [EmissionTest.performTest, InProgressState.handleTest, he]
  | completed =>
    simp [EmissionTest.performTest, CompletedState.handleTest]

theorem complianceStatus_false_before_completed_witness :
    (mkEmissionTest "Vehicle_1" TestState.pending).complianceStatus = false ∧
    ((mkEmissionTest "Vehicle_1" TestState.pending).performTest gasBad 180).1.state ≠
      TestState.completed ∧
    ((mkEmissionTest "Vehicle_1" TestState.pending).performTest gasBad 180).1.complianceStatus =
      (mkEmissionTest "Vehicle_1" TestState.pending).complianceStatus := by
  have hbad : gasBad.getEmissionLevel < 0 := by
    norm_num [gasBad, mkGasVehicle, Vehicle.getEmissionLevel, calculateEmission]
  have hst : ((mkEmissionTest "Vehicle_1" TestState.pending).performTest gasBad 180).1.state ≠
      TestState.completed := by
    rw [performTest_fresh, if_pos hbad]
    simp
  exact ⟨complianceStatus_false_before_completed.1 "Vehicle_1" TestState.pending, hst,
    complianceStatus_false_before_completed.2
      (mkEmissionTest "Vehicle_1" TestState.pending) gasBad 180 hst⟩

/-- C10: a vehicle with one of the two provided strategies and a non-negative
stored parameter has a non-negative emission level, so its fresh test never
takes the error branch and `runTest` records its verdict in the registry. -/
theorem nonneg_param_completes (v : Vehicle) (id : String) (l : ℚ) (r : Registry)
    (h : 0 ≤ v.parameter) :
    0 ≤ v.getEmissionLevel ∧
    ((mkEmissionTest id TestState.pending).performTest v l).2 = none ∧
    Registry.find (runTest v id l r) id =
      some ((mkEmissionTest id TestState.pending).performTest v l).1.complianceStatus := by
  have hnn : 0 ≤ v.getEmissionLevel := by
    unfold Vehicle.getEmissionLevel
    cases v.strategy with
    | gas =>
      show 0 ≤ v.parameter * (1 / 10)
      exact mul_nonneg h (by norm_num)
    | electric => exact le_refl 0
  refine ⟨hnn, ?_, ?_⟩
  · rw [performTest_fresh, if_neg (not_lt.mpr hnn)]
  · rw [runTest_nonneg v id l r hnn, Registry.find_insert_self,
      performTest_fresh, if_neg (not_lt.mpr hnn)]

theorem nonneg_param_completes_witness :
    0 ≤ elecOk.parameter ∧
    0 ≤ elecOk.getEmissionLevel ∧
    Registry.find (runTest elecOk "Vehicle_2" 180 []) "Vehicle_2" =
      some ((mkEmissionTest "Vehicle_2" TestState.pending).performTest elecOk 180).1.complianceStatus := by
  have h : 0 ≤ elecOk.parameter := by norm_num [elecOk, mkElectricVehicle]
  exact ⟨h, (nonneg_param_completes elecOk "Vehicle_2" 180 [] h).1,
    (nonneg_param_completes elecOk "Vehicle_2" 180 [] h).2.2⟩

end VET
